import Mathlib

/-!
Verification of `common/symbolic_codegen.cc` (drake symbolic code generation).

The C++ source lowers a symbolic expression tree to C text.  Double values
are modelled as rationals (every finite IEEE double is a rational, and the
two text-formatting routines the source uses are exact decimal roundings,
so the rational model is faithful on every double input).  C++ exceptions
(`throw runtime_error(msg)`) are modelled as `Except.error msg`.
-/

set_option maxRecDepth 4000

attribute [local semireducible] Rat.mul Rat.add Rat.sub Rat.inv

deriving instance DecidableEq for Except

/-- Floor of a rational as an integer (`Int.ediv` is floor division since the
denominator is positive); written out explicitly so it reduces in the kernel. -/
def ratFloor (q : ℚ) : ℤ := q.num / (q.den : ℤ)

/-- Round a rational to the nearest integer, ties to even.  This models the
correctly-rounded decimal conversion performed by the C library for
`printf`-family formatting (`std::to_string` uses `%f`, `ostream <<` uses
`%g`-style defaultfloat), whose rounding is to nearest with ties to even. -/
def roundTE (q : ℚ) : ℤ :=
  let f : ℤ := ratFloor q
  let r : ℚ := q - f
  if r < 1/2 then f
  else if 1/2 < r then f + 1
  else if f % 2 = 0 then f else f + 1

/-- Decimal digits of `n`, left-padded with zeros to width `w`. -/
def zeroPad (w : Nat) (n : Nat) : String :=
  let s := Nat.repr n
  String.mk (List.replicate (w - s.length) '0') ++ s

/-- Remove trailing `'0'` characters. -/
def stripTrailingZeros (s : String) : String :=
  String.mk ((s.data.reverse.dropWhile (fun c => c = '0')).reverse)

/-- Model of `std::to_string(double)`: fixed-point notation with exactly six
fractional digits (`%f`), sign taken from the value. -/
def cppToString (q : ℚ) : String :=
  let n : Nat := (roundTE (|q| * 1000000)).toNat
  (if q < 0 then "-" else "") ++ Nat.repr (n / 1000000) ++ "." ++ zeroPad 6 (n % 1000000)

/-- The exact numeric value denoted by the decimal text `cppToString q`
(that is, what parsing the emitted constant text back yields, before any
further floating-point rounding): `q` rounded to six decimal places. -/
def cppToStringValue (q : ℚ) : ℚ :=
  (if q < 0 then -1 else 1) * ((roundTE (|q| * 1000000) : ℚ) / 1000000)

/-- Smallest `k` (searched upward from `k`, with `fuel` steps) such that
`den ≤ num * 10 ^ k`; helper for the decimal exponent of a rational < 1. -/
def firstPowGe (num den : Nat) : Nat → Nat → Nat
  | 0, k => k
  | fuel + 1, k => if den ≤ num * 10 ^ k then k else firstPowGe num den fuel (k + 1)

/-- Decimal exponent of a positive rational `a`: the unique `e` with
`10 ^ e ≤ a < 10 ^ (e+1)` (callers pass `a ≠ 0`). -/
def decimalExponent (a : ℚ) : ℤ :=
  let num : Nat := a.num.natAbs
  let den : Nat := a.den
  if den ≤ num then
    ((Nat.repr (num / den)).length : ℤ) - 1
  else
    -(firstPowGe num den ((Nat.repr den).length + 1) 1 : ℤ)

/-- Model of `ostream << double` with default stream flags (defaultfloat,
precision 6), i.e. C `%g` with precision 6: round to six significant digits,
use fixed notation when the decimal exponent `X` satisfies `-4 ≤ X < 6` and
scientific notation otherwise, then strip trailing fractional zeros. -/
def ostreamDouble (q : ℚ) : String :=
  if q = 0 then "0"
  else
    let a : ℚ := |q|
    let e0 : ℤ := decimalExponent a
    let n0 : ℤ := roundTE (a * (10 : ℚ) ^ ((5 : ℤ) - e0))
    let n : ℤ := if n0 = 1000000 then 100000 else n0
    let e : ℤ := if n0 = 1000000 then e0 + 1 else e0
    let digits : String := Nat.repr n.toNat
    let sign : String := if q < 0 then "-" else ""
    if -4 ≤ e ∧ e < 6 then
      if 0 ≤ e then
        let ip := String.mk (digits.data.take (e.toNat + 1))
        let fp := stripTrailingZeros (String.mk (digits.data.drop (e.toNat + 1)))
        sign ++ ip ++ (if fp = "" then "" else "." ++ fp)
      else
        let fp := stripTrailingZeros
          (String.mk (List.replicate (-e - 1).toNat '0') ++ digits)
        sign ++ "0." ++ fp
    else
      let mant := String.mk (digits.data.take 1)
      let rest := stripTrailingZeros (String.mk (digits.data.drop 1))
      sign ++ mant ++ (if rest = "" then "" else "." ++ rest) ++ "e" ++
        (if e < 0 then "-" else "+") ++ zeroPad 2 e.natAbs

/-!
## Expression model

`drake::symbolic::Expression`, as consumed by the code generator: a tagged
variant over the closed kind set.  `Addition` carries a constant plus a
term-to-coefficient sequence, `Multiplication` a constant plus a
base-to-exponent sequence (both already canonical; the visitor iterates them
in the order the container supplies, modelled as list order).  The condition
formula of an if-then-else and the arguments of an uninterpreted function are
never inspected by the visitor (it throws immediately), so they are not part
of the model.  A `Variable` contributes only its identifier `get_id()`
(modelled as `Nat`); its name is never read by the code generator.
-/

mutual
inductive Expression where
  | var (id : Nat)
  | const (val : ℚ)
  | add (c : ℚ) (terms : TermList)
  | mul (c : ℚ) (factors : FactorList)
  | div (a b : Expression)
  | pow (a b : Expression)
  | abs (a : Expression)
  | log (a : Expression)
  | exp (a : Expression)
  | sqrt (a : Expression)
  | sin (a : Expression)
  | cos (a : Expression)
  | tan (a : Expression)
  | asin (a : Expression)
  | acos (a : Expression)
  | atan (a : Expression)
  | atan2 (a b : Expression)
  | sinh (a : Expression)
  | cosh (a : Expression)
  | tanh (a : Expression)
  | min (a b : Expression)
  | max (a b : Expression)
  | ceil (a : Expression)
  | floor (a : Expression)
  | ifThenElse (a b : Expression)
  | uninterpretedFunction (fname : String)
inductive TermList where
  | nil
  | cons (e : Expression) (coeff : ℚ) (rest : TermList)
inductive FactorList where
  | nil
  | cons (base expo : Expression) (rest : FactorList)
end

/-- The term-to-coefficient sequence of an addition, as a plain list. -/
def TermList.toList : TermList → List (Expression × ℚ)
  | .nil => []
  | .cons e c rest => (e, c) :: rest.toList

/-- The base-to-exponent sequence of a multiplication, as a plain list. -/
def FactorList.toList : FactorList → List (Expression × Expression)
  | .nil => []
  | .cons b e rest => (b, e) :: rest.toList

/-- Model of `drake::symbolic::is_one`: the expression is the constant 1. -/
def isOne : Expression → Bool
  | .const c => decide (c = 1)
  | _ => false

/-!
## Variable binding

`CodeGenVisitor::IdToIndexMap` is `unordered_map<Variable::Id, size_t>`; only
`find` and `emplace` are used, so an association list with first-match lookup
is an exact model.  `emplace` inserts only when the key is absent (it never
overwrites), which is what the binding loops in `CodeGen` and
`internal::CodeGenData` rely on.
-/

/-- A declared variable; the code generator reads only `get_id()`. -/
structure Variable where
  id : Nat
deriving DecidableEq

/-- Map from `Variable::Id` to parameter index. -/
def IdToIndexMap : Type := List (Nat × Nat)

/-- Model of `unordered_map::find`. -/
def lookupIdx (m : IdToIndexMap) (id : Nat) : Option Nat :=
  match m with
  | [] => none
  | (k, v) :: rest => if k = id then some v else lookupIdx rest id

/-- Model of `unordered_map::emplace`: insert only when the key is absent. -/
def emplace (m : IdToIndexMap) (k v : Nat) : IdToIndexMap :=
  match lookupIdx m k with
  | some _ => m
  | none => (k, v) :: m

/-- The binding loop `for i < parameters.size(): map.emplace(parameters[i].get_id(), i)`
shared by `CodeGen` (line 183) and `internal::CodeGenData` (line 210),
starting at index `i`. -/
def buildIdToIndexMapFrom (i : Nat) : List Variable → IdToIndexMap → IdToIndexMap
  | [], m => m
  | v :: rest, m => buildIdToIndexMapFrom (i + 1) rest (emplace m v.id i)

/-- Map from variable id to its parameter index, built fresh per request. -/
def buildIdToIndexMap (params : List Variable) : IdToIndexMap :=
  buildIdToIndexMapFrom 0 params []

/-!
## Expression lowering (`CodeGenVisitor`)

`CodeGen`/`VisitExpression` dispatches on the expression kind; a thrown
`runtime_error(msg)` is `Except.error msg`.  The addition and multiplication
constants are printed with `ostream <<` (`ostreamDouble`), a `Constant` leaf
with `std::to_string` (`cppToString`), exactly as in the source.
-/

mutual
def codeGenE (m : IdToIndexMap) : Expression → Except String String
  | .var id =>
    match lookupIdx m id with
    | none => .error "Variable index is not found."
    | some i => .ok ("p[" ++ Nat.repr i ++ "]")
  | .const c => .ok (cppToString c)
  | .add c ts => (codeGenTerms m ts).map (fun body => "(" ++ ostreamDouble c ++ body ++ ")")
  | .mul c fs => (codeGenFactors m fs).map (fun body => "(" ++ ostreamDouble c ++ body ++ ")")
  | .div a b => do
    let sa ← codeGenE m a
    let sb ← codeGenE m b
    pure ("(" ++ sa ++ " / " ++ sb ++ ")")
  | .pow a b => do
    let sa ← codeGenE m a
    let sb ← codeGenE m b
    pure ("pow(" ++ sa ++ ", " ++ sb ++ ")")
  | .abs a => (codeGenE m a).map (fun s => "fabs(" ++ s ++ ")")
  | .log a => (codeGenE m a).map (fun s => "log(" ++ s ++ ")")
  | .exp a => (codeGenE m a).map (fun s => "exp(" ++ s ++ ")")
  | .sqrt a => (codeGenE m a).map (fun s => "sqrt(" ++ s ++ ")")
  | .sin a => (codeGenE m a).map (fun s => "sin(" ++ s ++ ")")
  | .cos a => (codeGenE m a).map (fun s => "cos(" ++ s ++ ")")
  | .tan a => (codeGenE m a).map (fun s => "tan(" ++ s ++ ")")
  | .asin a => (codeGenE m a).map (fun s => "asin(" ++ s ++ ")")
  | .acos a => (codeGenE m a).map (fun s => "acos(" ++ s ++ ")")
  | .atan a => (codeGenE m a).map (fun s => "atan(" ++ s ++ ")")
  | .atan2 a b => do
    let sa ← codeGenE m a
    let sb ← codeGenE m b
    pure ("atan2(" ++ sa ++ ", " ++ sb ++ ")")
  | .sinh a => (codeGenE m a).map (fun s => "sinh(" ++ s ++ ")")
  | .cosh a => (codeGenE m a).map (fun s => "cosh(" ++ s ++ ")")
  | .tanh a => (codeGenE m a).map (fun s => "tanh(" ++ s ++ ")")
  | .min a b => do
    let sa ← codeGenE m a
    let sb ← codeGenE m b
    pure ("fmin(" ++ sa ++ ", " ++ sb ++ ")")
  | .max a b => do
    let sa ← codeGenE m a
    let sb ← codeGenE m b
    pure ("fmax(" ++ sa ++ ", " ++ sb ++ ")")
  | .ceil a => (codeGenE m a).map (fun s => "ceil(" ++ s ++ ")")
  | .floor a => (codeGenE m a).map (fun s => "floor(" ++ s ++ ")")
  | .ifThenElse _ _ => .error "Codegen does not support if-then-else expressions."
  | .uninterpretedFunction _ => .error "Codegen does not support uninterpreted functions."
def codeGenTerms (m : IdToIndexMap) : TermList → Except String String
  | .nil => .ok ""
  | .cons e c rest => do
    let s ← if c = 1 then codeGenE m e
            else (codeGenE m e).map (fun t => "(" ++ ostreamDouble c ++ " * " ++ t ++ ")")
    let r ← codeGenTerms m rest
    pure (" + " ++ s ++ r)
def codeGenFactors (m : IdToIndexMap) : FactorList → Except String String
  | .nil => .ok ""
  | .cons b e rest => do
    let s ← if isOne e then codeGenE m b
            else do
              let sb ← codeGenE m b
              let se ← codeGenE m e
              pure ("pow(" ++ sb ++ ", " ++ se ++ ")")
    let r ← codeGenFactors m rest
    pure (" * " ++ s ++ r)
end

/-!
## Emitters

Scalar `CodeGen` (lines 175-199) accumulates into a local `ostringstream`
and returns it; if lowering throws, nothing is returned, so its model is an
`Except`.  Batch `internal::CodeGenData` (lines 202-220) writes directly to
the caller-supplied `ostream*`; its model therefore returns the text already
written to that sink together with the error, if any: on an exception the
header and the statements emitted so far are already in the caller's stream.
-/

/-- Scalar emitter `drake::symbolic::CodeGen(function_name, parameters, e)`. -/
def codeGen (name : String) (params : List Variable) (e : Expression) :
    Except String String :=
  (codeGenE (buildIdToIndexMap params) e).map (fun body =>
    "double " ++ name ++ "(const double* p) \x7b\n" ++
    "    return " ++ body ++ ";\n" ++
    "\x7d\n" ++
    "typedef struct \x7b\n    /* p: input, vector */\n    struct \x7b int size; \x7d p;\n\x7d " ++
    name ++ "_meta_t;\n" ++
    name ++ "_meta_t " ++ name ++ "_meta() \x7b return \x7b\x7b" ++
    Nat.repr params.length ++ "\x7d\x7d; \x7d\n")

/-- The assignment loop of `internal::CodeGenData` (lines 214-217), starting
at flattened index `i`: first component is the text written to the sink,
second the exception, if one was thrown.  The closing brace is written only
when every statement succeeded. -/
def codeGenDataLoop (v : IdToIndexMap) (i : Nat) :
    List Expression → String × Option String
  | [] => ("\x7d\n", none)
  | e :: rest =>
    match codeGenE v e with
    | .error msg => ("", some msg)
    | .ok s =>
      let line := "    m[" ++ Nat.repr i ++ "] = " ++ s ++ ";\n"
      let out := codeGenDataLoop v (i + 1) rest
      (line ++ out.1, out.2)

/-- Batch emitter body `internal::CodeGenData(function_name, parameters, data,
size, os)`; `data`/`size` are modelled as the list of the `size` expressions
read from the array.  Returns what was written to `*os`, and the exception. -/
def codeGenData (name : String) (params : List Variable) (data : List Expression) :
    String × Option String :=
  let out := codeGenDataLoop (buildIdToIndexMap params) 0 data
  ("void " ++ name ++ "(const double* p, double* m) \x7b\n" ++ out.1, out.2)

/-- Batch metadata emitter `internal::CodeGenMeta(function_name,
parameter_size, rows, cols, os)` (lines 222-235); it cannot throw. -/
def codeGenMeta (name : String) (parameterSize rows cols : Nat) : String :=
  "typedef struct \x7b\n    /* p: input, vector */\n    struct \x7b int size; \x7d p;\n" ++
  "    /* m: output, matrix */\n    struct \x7b int rows; int cols; \x7d m;\n\x7d " ++
  name ++ "_meta_t;\n" ++
  name ++ "_meta_t " ++ name ++ "_meta() \x7b return \x7b\x7b" ++
  Nat.repr parameterSize ++ "\x7d, \x7b" ++ Nat.repr rows ++ ", " ++
  Nat.repr cols ++ "\x7d\x7d; \x7d\n"

/-- Modelled from the spec: the batch emission entry point
`emitBatchFunction(name, parameters, data: rows x cols, sink)` of spec
section 4.4 and section 7.  The templated caller-facing wrapper lives in
`drake/common/symbolic_codegen.h`, which is not among the provided sources;
per the spec it fails `MalformedInput` on a shape mismatch (batch data size
different from rows*cols) and otherwise streams `internal::CodeGenData` then
`internal::CodeGenMeta` into the sink. -/
def emitBatchFunction (name : String) (params : List Variable)
    (data : List Expression) (rows cols : Nat) : String × Option String :=
  if data.length ≠ rows * cols then ("", some "MalformedInput")
  else
    let out := codeGenData name params data
    match out.2 with
    | some msg => (out.1, some msg)
    | none => (out.1 ++ codeGenMeta name params.length rows cols, none)

/-!
## Analysis predicates

`containsUnsupported` holds when the tree has an if-then-else or
uninterpreted-function node anywhere (the two kinds whose visit methods
throw); `allVarsBound` holds when every variable node's id is bound in the
map.  Both follow the tree structure the visitor recurses over.
-/

mutual
def containsUnsupported : Expression → Bool
  | .var _ => false
  | .const _ => false
  | .add _ ts => containsUnsupportedT ts
  | .mul _ fs => containsUnsupportedF fs
  | .div a b => containsUnsupported a || containsUnsupported b
  | .pow a b => containsUnsupported a || containsUnsupported b
  | .abs a => containsUnsupported a
  | .log a => containsUnsupported a
  | .exp a => containsUnsupported a
  | .sqrt a => containsUnsupported a
  | .sin a => containsUnsupported a
  | .cos a => containsUnsupported a
  | .tan a => containsUnsupported a
  | .asin a => containsUnsupported a
  | .acos a => containsUnsupported a
  | .atan a => containsUnsupported a
  | .atan2 a b => containsUnsupported a || containsUnsupported b
  | .sinh a => containsUnsupported a
  | .cosh a => containsUnsupported a
  | .tanh a => containsUnsupported a
  | .min a b => containsUnsupported a || containsUnsupported b
  | .max a b => containsUnsupported a || containsUnsupported b
  | .ceil a => containsUnsupported a
  | .floor a => containsUnsupported a
  | .ifThenElse _ _ => true
  | .uninterpretedFunction _ => true
def containsUnsupportedT : TermList → Bool
  | .nil => false
  | .cons e _ rest => containsUnsupported e || containsUnsupportedT rest
def containsUnsupportedF : FactorList → Bool
  | .nil => false
  | .cons b e rest => containsUnsupported b || containsUnsupported e || containsUnsupportedF rest
end

mutual
def allVarsBound (m : IdToIndexMap) : Expression → Bool
  | .var id => (lookupIdx m id).isSome
  | .const _ => true
  | .add _ ts => allVarsBoundT m ts
  | .mul _ fs => allVarsBoundF m fs
  | .div a b => allVarsBound m a && allVarsBound m b
  | .pow a b => allVarsBound m a && allVarsBound m b
  | .abs a => allVarsBound m a
  | .log a => allVarsBound m a
  | .exp a => allVarsBound m a
  | .sqrt a => allVarsBound m a
  | .sin a => allVarsBound m a
  | .cos a => allVarsBound m a
  | .tan a => allVarsBound m a
  | .asin a => allVarsBound m a
  | .acos a => allVarsBound m a
  | .atan a => allVarsBound m a
  | .atan2 a b => allVarsBound m a && allVarsBound m b
  | .sinh a => allVarsBound m a
  | .cosh a => allVarsBound m a
  | .tanh a => allVarsBound m a
  | .min a b => allVarsBound m a && allVarsBound m b
  | .max a b => allVarsBound m a && allVarsBound m b
  | .ceil a => allVarsBound m a
  | .floor a => allVarsBound m a
  | .ifThenElse a b => allVarsBound m a && allVarsBound m b
  | .uninterpretedFunction _ => true
def allVarsBoundT (m : IdToIndexMap) : TermList → Bool
  | .nil => true
  | .cons e _ rest => allVarsBound m e && allVarsBoundT m rest
def allVarsBoundF (m : IdToIndexMap) : FactorList → Bool
  | .nil => true
  | .cons b e rest => allVarsBound m b && allVarsBound m e && allVarsBoundF m rest
end

/-!
## Spec-side renderings (refinement)

Definitions that follow the wording of spec section 4.2 for the Addition and
Multiplication rows, to be compared with the source-derived lowering:
`(c0 + c1*lower(e1) + ...)` with coefficient-1 terms unwrapped, and
`(c0 * base1^exp1 * ...)` with exponent-literal-1 factors unwrapped.
-/

/-- Concatenation of a list of fragments, in order. -/
def strConcat (l : List String) : String :=
  l.foldr (fun s acc => s ++ acc) ""

/-- Spec rendering of one addition term: a term with coefficient exactly 1.0
omits the multiplier and emits `lower(e)` directly; every other term is
emitted as `(coeff * term)`. -/
def specTermText (v : IdToIndexMap) (e : Expression) (c : ℚ) : Except String String :=
  if c = 1 then codeGenE v e
  else (codeGenE v e).map (fun s => "(" ++ ostreamDouble c ++ " * " ++ s ++ ")")

/-- Spec rendering of an Addition node: `(c0 + t1 + t2 + ...)` over the
rendered terms. -/
def specAdditionText (v : IdToIndexMap) (c0 : ℚ) (terms : List (Expression × ℚ)) :
    Except String String := do
  let ts ← terms.mapM (fun p => specTermText v p.1 p.2)
  pure ("(" ++ ostreamDouble c0 ++ strConcat (ts.map (fun s => " + " ++ s)) ++ ")")

/-- Spec rendering of one multiplication factor: a factor whose exponent is
the literal constant 1 omits the power wrapper and emits `lower(base)`
directly; otherwise a binary power call over `lower(base), lower(exp)`. -/
def specFactorText (v : IdToIndexMap) (b e : Expression) : Except String String :=
  if isOne e then codeGenE v b
  else do
    let sb ← codeGenE v b
    let se ← codeGenE v e
    pure ("pow(" ++ sb ++ ", " ++ se ++ ")")

/-- Spec rendering of a Multiplication node: the parenthesized product
starting with `c0` over the rendered factors. -/
def specMultiplicationText (v : IdToIndexMap) (c0 : ℚ)
    (factors : List (Expression × Expression)) : Except String String := do
  let fs ← factors.mapM (fun p => specFactorText v p.1 p.2)
  pure ("(" ++ ostreamDouble c0 ++ strConcat (fs.map (fun s => " * " ++ s)) ++ ")")

/-- Invariant used for the unsupported-construct analysis of a lowering
result `r` whose tree has `containsUnsupported`-flag `c` and
`allVarsBound`-flag `b`: when the tree holds an unsupported node lowering
throws, with one of the two unsupported-construct messages whenever no
unbound-variable error can preempt it; when the tree holds no unsupported
node and all its variables are bound, lowering succeeds. -/
def C6Inv (r : Except String String) (c b : Bool) : Prop :=
  (c = true →
    ∃ msg, r = .error msg ∧
      (b = true →
        msg = "Codegen does not support if-then-else expressions." ∨
        msg = "Codegen does not support uninterpreted functions.")) ∧
  (c = false → b = true → ∃ s, r = .ok s)

/-!
## Supporting lemmas
-/

@[simp]
theorem except_bind_ok (a : String) (f : String → Except String String) :
    (Except.ok a : Except String String) >>= f = f a := rfl

@[simp]
theorem except_bind_error (msg : String) (f : String → Except String String) :
    (Except.error msg : Except String String) >>= f = Except.error msg := rfl

@[simp]
theorem except_map_ok (a : String) (f : String → String) :
    (Except.ok a : Except String String).map f = Except.ok (f a) := rfl

@[simp]
theorem except_map_error (msg : String) (f : String → String) :
    (Except.error msg : Except String String).map f = Except.error msg := rfl

@[simp]
theorem except_pure_eq_ok (a : String) :
    (pure a : Except String String) = Except.ok a := rfl

theorem exceptOkCongr (s t : String) (h : s.data = t.data) :
    (Except.ok s : Except String String) = .ok t :=
  congrArg Except.ok (String.ext h)

theorem ratFloor_eq_floor (q : ℚ) : ratFloor q = ⌊q⌋ := Rat.floor_def.symm

theorem roundTE_intCast (n : ℤ) : roundTE (n : ℚ) = n := by
  have h1 : ratFloor (n : ℚ) = n := by rw [ratFloor_eq_floor]; exact Int.floor_intCast n
  simp only [roundTE, h1]
  norm_num

theorem roundTE_cast_eq_self_iff (x : ℚ) :
    ((roundTE x : ℤ) : ℚ) = x ↔ ∃ n : ℤ, x = (n : ℚ) := by
  constructor
  · intro h
    exact ⟨roundTE x, h.symm⟩
  · rintro ⟨n, rfl⟩
    rw [roundTE_intCast]

/-!
## Claims
-/

/-- C1: lowering a Variable node whose identity is absent from the bindings
fails with the unbound-variable error, and lowering a Variable node whose
identity is bound at index `i` emits exactly the text `p[i]`. -/
theorem claim_C1 (m : IdToIndexMap) (id : Nat) :
    (lookupIdx m id = none →
      codeGenE m (.var id) = .error "Variable index is not found.") ∧
    (∀ i, lookupIdx m id = some i →
      codeGenE m (.var id) = .ok ("p[" ++ Nat.repr i ++ "]")) := by
  constructor
  · intro h
    simp [codeGenE, h]
  · intro i h
    simp [codeGenE, h]

theorem claim_C1_witness :
    codeGenE [(5, 2)] (.var 5) = .ok "p[2]" ∧
    codeGenE [] (.var 5) = .error "Variable index is not found." :=
  ⟨(claim_C1 [(5, 2)] 5).2 2 (by decide), (claim_C1 [] 5).1 (by decide)⟩

/-- C2 (corrected): lowering a Constant emits its `std::to_string` text, a
fixed six-decimal rendering; the value denoted by that text is the constant
rounded to six decimal places, so the round-trip recovers the constant
exactly iff the constant is an integer multiple of `10^-6` — not for every
double value. -/
theorem claim_C2 (m : IdToIndexMap) (c : ℚ) :
    codeGenE m (.const c) = .ok (cppToString c) ∧
    (cppToStringValue c = c ↔ ∃ n : ℤ, c * 1000000 = (n : ℚ)) := by
  refine ⟨by simp [codeGenE], ?_⟩
  have h6 : (1000000 : ℚ) ≠ 0 := by norm_num
  by_cases hc : c < 0
  · have habs : |c| = -c := abs_of_neg hc
    simp only [cppToStringValue, if_pos hc, habs, neg_mul]
    constructor
    · intro h
      have h2 : ((roundTE (-(c * 1000000)) : ℤ) : ℚ) = -(c * 1000000) := by
        field_simp at h
        linarith
      rcases (roundTE_cast_eq_self_iff _).mp h2 with ⟨n, hn⟩
      refine ⟨-n, ?_⟩
      push_cast at hn ⊢
      linarith
    · rintro ⟨n, hn⟩
      have h2 : -(c * 1000000) = ((-n : ℤ) : ℚ) := by push_cast; linarith
      have h3 : roundTE (-(c * 1000000)) = -n := by rw [h2, roundTE_intCast]
      rw [h3]
      push_cast
      field_simp
      linarith
  · have habs : |c| = c := abs_of_nonneg (not_lt.mp hc)
    simp only [cppToStringValue, if_neg hc, habs, one_mul]
    constructor
    · intro h
      have h2 : ((roundTE (c * 1000000) : ℤ) : ℚ) = c * 1000000 := by
        field_simp at h
        linarith
      rcases (roundTE_cast_eq_self_iff _).mp h2 with ⟨n, hn⟩
      exact ⟨n, hn⟩
    · rintro ⟨n, hn⟩
      rw [hn, roundTE_intCast, ← hn]
      field_simp

theorem claim_C2_witness :
    codeGenE [] (.const 2) = .ok "2.000000" ∧
    (cppToStringValue 2 = 2 ↔ ∃ n : ℤ, (2 : ℚ) * 1000000 = (n : ℚ)) :=
  ⟨(claim_C2 [] 2).1.trans (by decide), (claim_C2 [] 2).2⟩

/-- C2 counterexample: for the constant `10^-10` the emitted text is
`0.000000`, whose value is `0`, not the original constant — the claimed
full-double-precision round-trip fails. -/
theorem claim_C2_counterexample :
    codeGenE [] (.const (1/10000000000)) = .ok "0.000000" ∧
    cppToStringValue (1/10000000000) = 0 ∧ (1/10000000000 : ℚ) ≠ 0 := by decide

/-- C3 (corrected): with `x` bound at `i` and `y` at `j`, `Sin(x)` lowers to
`sin(p[i])` and `x/y` lowers to `(p[i] / p[j])` as claimed, but the constant
exponent of `Pow(x, 2)` is rendered by `std::to_string`, so the emitted text
is `pow(p[i], 2.000000)`, not `pow(p[i], 2)`. -/
theorem claim_C3 (m : IdToIndexMap) (x y i j : Nat)
    (hx : lookupIdx m x = some i) (hy : lookupIdx m y = some j) :
    codeGenE m (.sin (.var x)) = .ok ("sin(p[" ++ Nat.repr i ++ "])") ∧
    codeGenE m (.pow (.var x) (.const 2)) =
      .ok ("pow(p[" ++ Nat.repr i ++ "], 2.000000)") ∧
    codeGenE m (.div (.var x) (.var y)) =
      .ok ("(p[" ++ Nat.repr i ++ "] / p[" ++ Nat.repr j ++ "])") := by
  have h2 : cppToString 2 = "2.000000" := by decide
  refine ⟨?_, ?_, ?_⟩ <;>
    simp only [codeGenE, hx, hy, h2, except_map_ok, except_bind_ok, except_pure_eq_ok] <;>
    exact exceptOkCongr _ _ (by simp only [String.data_append, List.append_assoc]; rfl)

theorem claim_C3_witness :
    codeGenE [(0, 0), (1, 1)] (.sin (.var 0)) = .ok "sin(p[0])" ∧
    codeGenE [(0, 0), (1, 1)] (.pow (.var 0) (.const 2)) = .ok "pow(p[0], 2.000000)" ∧
    codeGenE [(0, 0), (1, 1)] (.div (.var 0) (.var 1)) = .ok "(p[0] / p[1])" :=
  claim_C3 [(0, 0), (1, 1)] 0 1 0 1 (by decide) (by decide)

/-- C3 counterexample: at the concrete binding `x -> 0`, lowering
`Pow(x, 2)` emits `pow(p[0], 2.000000)`, which differs from the claimed
`pow(p[0], 2)`. -/
theorem claim_C3_counterexample :
    codeGenE [(0, 0)] (.pow (.var 0) (.const 2)) = .ok "pow(p[0], 2.000000)" ∧
    (Except.ok "pow(p[0], 2.000000)" : Except String String) ≠ .ok "pow(p[0], 2)" := by
  decide

/-- C9: generation is a pure function of its arguments (expression and
parameter order); two independent calls — scalar or batch — produce
byte-identical output. -/
theorem claim_C9 (name : String) (params : List Variable) (e : Expression)
    (data : List Expression) (rows cols : Nat) :
    codeGen name params e = codeGen name params e ∧
    emitBatchFunction name params data rows cols =
      emitBatchFunction name params data rows cols :=
  ⟨rfl, rfl⟩

theorem lookupIdx_buildFrom (ps : List Variable) :
    ∀ (i : Nat) (m : IdToIndexMap) (k : Nat),
      lookupIdx (buildIdToIndexMapFrom i ps m) k =
        match lookupIdx m k with
        | some w => some w
        | none => List.findIdx? (fun v => v.id = k) ps i := by
  induction ps with
  | nil =>
    intro i m k
    cases h : lookupIdx m k <;> simp [buildIdToIndexMapFrom, h]
  | cons v ps ih =>
    intro i m k
    simp only [buildIdToIndexMapFrom, ih, List.findIdx?_cons]
    by_cases hk : v.id = k
    · subst hk
      cases h : lookupIdx m v.id with
      | some w =>
        have heq : emplace m v.id i = m := by simp [emplace, h]
        rw [heq, h]
      | none =>
        have heq : lookupIdx (emplace m v.id i) v.id = some i := by
          simp [emplace, h, lookupIdx]
        rw [heq]
        simp [h]
    · have : lookupIdx (emplace m v.id i) k = lookupIdx m k := by
        cases h : lookupIdx m v.id <;> simp [emplace, h, lookupIdx, hk]
      rw [this]
      cases h : lookupIdx m k <;> simp [hk]

/-- C10: when the parameter list repeats a variable identity, `emplace` keeps
the first occurrence's index, so the identity resolves to — and every
reference renders with — the position of its first occurrence. -/
theorem claim_C10 (params : List Variable) (k i : Nat)
    (h : List.findIdx? (fun v => v.id = k) params = some i) :
    lookupIdx (buildIdToIndexMap params) k = some i ∧
    codeGenE (buildIdToIndexMap params) (.var k) = .ok ("p[" ++ Nat.repr i ++ "]") := by
  have hb := lookupIdx_buildFrom params 0 [] k
  have hl : lookupIdx (buildIdToIndexMap params) k = some i := by
    rw [buildIdToIndexMap, hb]
    exact h
  exact ⟨hl, ((claim_C1 (buildIdToIndexMap params) k).2 i hl)⟩

theorem claim_C10_witness :
    lookupIdx (buildIdToIndexMap [⟨5⟩, ⟨7⟩, ⟨5⟩]) 5 = some 0 ∧
    codeGenE (buildIdToIndexMap [⟨5⟩, ⟨7⟩, ⟨5⟩]) (.var 5) = .ok "p[0]" :=
  claim_C10 [⟨5⟩, ⟨7⟩, ⟨5⟩] 5 0 (by decide)

theorem codeGenTerms_cons (v : IdToIndexMap) (e : Expression) (c : ℚ) (rest : TermList) :
    codeGenTerms v (.cons e c rest) = (do
      let s ← specTermText v e c
      let r ← codeGenTerms v rest
      pure (" + " ++ s ++ r)) := by
  simp only [codeGenTerms, specTermText]
  by_cases h : c = 1 <;> simp [h]

theorem codeGenFactors_cons (v : IdToIndexMap) (b e : Expression) (rest : FactorList) :
    codeGenFactors v (.cons b e rest) = (do
      let s ← specFactorText v b e
      let r ← codeGenFactors v rest
      pure (" * " ++ s ++ r)) := by
  simp only [codeGenFactors, specFactorText]
  by_cases h : isOne e = true <;> simp [h]

theorem codeGenTerms_eq_spec (v : IdToIndexMap) :
    (ts : TermList) →
    codeGenTerms v ts =
      (ts.toList.mapM (fun p => specTermText v p.1 p.2)).map
        (fun l => strConcat (l.map (fun s => " + " ++ s)))
  | .nil => rfl
  | .cons e c rest => by
    rw [codeGenTerms_cons, codeGenTerms_eq_spec v rest]
    simp only [TermList.toList, List.mapM_cons]
    cases hs : specTermText v e c with
    | error msg => rfl
    | ok s =>
      cases hr : rest.toList.mapM (fun p => specTermText v p.1 p.2) with
      | error msg => rfl
      | ok l => rfl

theorem codeGenFactors_eq_spec (v : IdToIndexMap) :
    (fs : FactorList) →
    codeGenFactors v fs =
      (fs.toList.mapM (fun p => specFactorText v p.1 p.2)).map
        (fun l => strConcat (l.map (fun s => " * " ++ s)))
  | .nil => rfl
  | .cons b e rest => by
    rw [codeGenFactors_cons, codeGenFactors_eq_spec v rest]
    simp only [FactorList.toList, List.mapM_cons]
    cases hs : specFactorText v b e with
    | error msg => rfl
    | ok s =>
      cases hr : rest.toList.mapM (fun p => specFactorText v p.1 p.2) with
      | error msg => rfl
      | ok l => rfl

/-- C4: lowering `Addition(2, {(x, 1.0), (y, 3.0)})` with `x` bound at `i`
and `y` at `j` emits exactly `(2 + p[i] + (3 * p[j]))`, and in general an
Addition node lowers to the spec's rendering, in which a coefficient-1 term
is emitted bare and every other term as `(coeff * term)`. -/
theorem claim_C4 (v : IdToIndexMap) (x y i j : Nat)
    (hx : lookupIdx v x = some i) (hy : lookupIdx v y = some j) :
    codeGenE v (.add 2 (.cons (.var x) 1 (.cons (.var y) 3 .nil))) =
      .ok ("(2 + p[" ++ Nat.repr i ++ "] + (3 * p[" ++ Nat.repr j ++ "]))") ∧
    (∀ c0 ts, codeGenE v (.add c0 ts) = specAdditionText v c0 ts.toList) := by
  have hgen : ∀ c0 ts, codeGenE v (.add c0 ts) = specAdditionText v c0 ts.toList := by
    intro c0 ts
    rw [specAdditionText]
    simp only [codeGenE, codeGenTerms_eq_spec]
    cases hm : ts.toList.mapM (fun p => specTermText v p.1 p.2) with
    | error msg => rfl
    | ok l => rfl
  refine ⟨?_, hgen⟩
  have h2 : ostreamDouble 2 = "2" := by decide
  have h3 : ostreamDouble 3 = "3" := by decide
  have h31 : ((3 : ℚ) = 1) = False := by norm_num
  simp [codeGenE, codeGenTerms_cons, specTermText, hx, hy, h2, h3, h31]
  exact exceptOkCongr _ _ (by simp only [String.data_append, List.append_assoc]; rfl)

theorem claim_C4_witness :
    codeGenE [(0, 0), (1, 1)] (.add 2 (.cons (.var 0) 1 (.cons (.var 1) 3 .nil))) =
      .ok "(2 + p[0] + (3 * p[1]))" :=
  (claim_C4 [(0, 0), (1, 1)] 0 1 0 1 (by decide) (by decide)).1

/-- C5: a Multiplication node lowers to the spec's rendering: the
parenthesized product starting with `c0`, where a factor whose exponent is
the literal constant 1 is emitted as the lowered base alone and every other
factor as a binary pow call over the lowered base and lowered exponent. -/
theorem claim_C5 (v : IdToIndexMap) (c0 : ℚ) (fs : FactorList) :
    codeGenE v (.mul c0 fs) = specMultiplicationText v c0 fs.toList := by
  rw [specMultiplicationText]
  simp only [codeGenE, codeGenFactors_eq_spec]
  cases hm : fs.toList.mapM (fun p => specFactorText v p.1 p.2) with
  | error msg => rfl
  | ok l => rfl

/-- C8: the scalar emitter's generated meta accessor returns an `inputSize`
equal to the length of the supplied parameter list, and the batch emitter's
generated output ends with the `internal::CodeGenMeta` text, whose accessor
returns exactly `\x7b len(parameters), \x7brows, cols\x7d\x7d` as supplied. -/
theorem claim_C8 :
    (∀ (name : String) (params : List Variable) (e : Expression) (r : String),
      codeGen name params e = .ok r →
      ∃ body, codeGenE (buildIdToIndexMap params) e = .ok body ∧
        r = "double " ++ name ++ "(const double* p) \x7b\n    return " ++ body ++
            ";\n\x7d\ntypedef struct \x7b\n    /* p: input, vector */\n    struct \x7b int size; \x7d p;\n\x7d " ++
            name ++ "_meta_t;\n" ++ name ++ "_meta_t " ++ name ++
            "_meta() \x7b return \x7b\x7b" ++ Nat.repr params.length ++ "\x7d\x7d; \x7d\n") ∧
    (∀ (name : String) (params : List Variable) (data : List Expression)
       (rows cols : Nat) (out : String),
      emitBatchFunction name params data rows cols = (out, none) →
      ∃ dataPart, out = dataPart ++ codeGenMeta name params.length rows cols) ∧
    (∀ (name : String) (n r c : Nat),
      codeGenMeta name n r c =
        "typedef struct \x7b\n    /* p: input, vector */\n    struct \x7b int size; \x7d p;\n" ++
        "    /* m: output, matrix */\n    struct \x7b int rows; int cols; \x7d m;\n\x7d " ++
        name ++ "_meta_t;\n" ++ name ++ "_meta_t " ++ name ++
        "_meta() \x7b return \x7b\x7b" ++ Nat.repr n ++ "\x7d, \x7b" ++ Nat.repr r ++ ", " ++
        Nat.repr c ++ "\x7d\x7d; \x7d\n") := by
  refine ⟨?_, ?_, ?_⟩
  · intro name params e r h
    rw [codeGen] at h
    cases hbody : codeGenE (buildIdToIndexMap params) e with
    | error msg => rw [hbody] at h; exact absurd h (by simp)
    | ok body =>
      rw [hbody] at h
      simp only [except_map_ok, Except.ok.injEq] at h
      refine ⟨body, rfl, ?_⟩
      rw [← h]
      apply String.ext
      simp only [String.data_append, List.append_assoc]
      rfl
  · intro name params data rows cols out h
    by_cases hlen : data.length ≠ rows * cols
    · simp only [emitBatchFunction, if_pos hlen] at h
      exact absurd h (by simp)
    · simp only [emitBatchFunction, if_neg hlen] at h
      cases herr : (codeGenData name params data).2 with
      | some msg => rw [herr] at h; simp at h
      | none =>
        rw [herr] at h
        simp only [Prod.mk.injEq] at h
        exact ⟨(codeGenData name params data).1, h.1.symm⟩
  · intro name n r c
    rfl

theorem claim_C8_witness :
    (∃ body, codeGenE (buildIdToIndexMap [⟨3⟩]) (.var 3) = .ok body ∧
      ("double f(const double* p) \x7b\n    return p[0];\n\x7d\n" ++
       "typedef struct \x7b\n    /* p: input, vector */\n    struct \x7b int size; \x7d p;\n\x7d " ++
       "f_meta_t;\nf_meta_t f_meta() \x7b return \x7b\x7b1\x7d\x7d; \x7d\n") =
        "double " ++ "f" ++ "(const double* p) \x7b\n    return " ++ body ++
        ";\n\x7d\ntypedef struct \x7b\n    /* p: input, vector */\n    struct \x7b int size; \x7d p;\n\x7d " ++
        "f" ++ "_meta_t;\n" ++ "f" ++ "_meta_t " ++ "f" ++
        "_meta() \x7b return \x7b\x7b" ++ Nat.repr (List.length [(⟨3⟩ : Variable)]) ++ "\x7d\x7d; \x7d\n") :=
  claim_C8.1 "f" [⟨3⟩] (.var 3) _ (by decide)

@[simp]
theorem strConcat_nil : strConcat [] = "" := rfl

@[simp]
theorem strConcat_cons (s : String) (l : List String) :
    strConcat (s :: l) = s ++ strConcat l := rfl

theorem codeGenDataLoop_ok (v : IdToIndexMap) :
    ∀ (data : List Expression) (i : Nat) (out : String),
      codeGenDataLoop v i data = (out, none) →
      ∃ ss : List String,
        ss.length = data.length ∧
        (∀ k, k < data.length →
          codeGenE v (data.getD k (.const 0)) = .ok (ss.getD k "")) ∧
        out = strConcat (((List.range' i data.length).zip ss).map (fun p =>
          "    m[" ++ Nat.repr p.1 ++ "] = " ++ p.2 ++ ";\n")) ++ "\x7d\n" := by
  intro data
  induction data with
  | nil =>
    intro i out h
    simp only [codeGenDataLoop, Prod.mk.injEq] at h
    refine ⟨[], rfl, fun k hk => absurd hk (by simp), ?_⟩
    rw [← h.1]
    rfl
  | cons e rest ih =>
    intro i out h
    cases hs : codeGenE v e with
    | error msg =>
      simp only [codeGenDataLoop, hs] at h
      exact absurd h (by simp)
    | ok s =>
      simp only [codeGenDataLoop, hs, Prod.mk.injEq] at h
      obtain ⟨h1, h2⟩ := h
      have hrest : codeGenDataLoop v (i + 1) rest =
          ((codeGenDataLoop v (i + 1) rest).1, none) := by
        rw [← h2]
      obtain ⟨ss, hlen, hvals, hout⟩ := ih (i + 1) _ hrest
      refine ⟨s :: ss, by simp [hlen], ?_, ?_⟩
      · intro k hk
        cases k with
        | zero => simpa using hs
        | succ k' =>
          simp only [List.getD_cons_succ]
          exact hvals k' (by simpa using hk)
      · rw [← h1, hout]
        simp only [List.length_cons, List.range'_succ, List.zip_cons_cons, List.map_cons,
          strConcat_cons, List.getD_cons_zero, String.append_assoc]

/-- C7: batch generation fails with `MalformedInput` when the batch data size
is not `rows * cols`; succeeding batch generation emits exactly one
assignment statement `m[i] = <lowered data[i]>;` for each flattened index
`i` in `[0, rows*cols)`, between the function header and the closing brace,
followed by the metadata. -/
theorem claim_C7 (name : String) (params : List Variable) (data : List Expression)
    (rows cols : Nat) :
    (data.length ≠ rows * cols →
      emitBatchFunction name params data rows cols = ("", some "MalformedInput")) ∧
    (∀ out, emitBatchFunction name params data rows cols = (out, none) →
      ∃ ss : List String,
        ss.length = rows * cols ∧
        (∀ k, k < rows * cols →
          codeGenE (buildIdToIndexMap params) (data.getD k (.const 0)) = .ok (ss.getD k "")) ∧
        out = "void " ++ name ++ "(const double* p, double* m) \x7b\n" ++
          (strConcat (((List.range' 0 (rows * cols)).zip ss).map (fun p =>
            "    m[" ++ Nat.repr p.1 ++ "] = " ++ p.2 ++ ";\n")) ++ "\x7d\n") ++
          codeGenMeta name params.length rows cols) := by
  constructor
  · intro hlen
    simp [emitBatchFunction, hlen]
  · intro out h
    by_cases hlen : data.length ≠ rows * cols
    · simp only [emitBatchFunction, if_pos hlen] at h
      exact absurd h (by simp)
    · have hlen' : data.length = rows * cols := not_ne_iff.mp hlen
      simp only [emitBatchFunction, if_neg hlen] at h
      cases herr : (codeGenData name params data).2 with
      | some msg => rw [herr] at h; simp at h
      | none =>
        rw [herr] at h
        simp only [Prod.mk.injEq] at h
        obtain ⟨h1, _⟩ := h
        have hloop2 : (codeGenDataLoop (buildIdToIndexMap params) 0 data).2 = none := by
          simpa [codeGenData] using herr
        have hloop : codeGenDataLoop (buildIdToIndexMap params) 0 data =
            ((codeGenDataLoop (buildIdToIndexMap params) 0 data).1, none) := by
          rw [← hloop2]
        obtain ⟨ss, hlen2, hvals, hout⟩ := codeGenDataLoop_ok _ data 0 _ hloop
        refine ⟨ss, by rw [← hlen', hlen2], ?_, ?_⟩
        · intro k hk
          exact hvals k (by omega)
        · rw [← h1]
          simp only [codeGenData]
          rw [hout, hlen']

theorem C6Inv_map (f : String → String) {r : Except String String} {c b : Bool}
    (h : C6Inv r c b) : C6Inv (r.map f) c b := by
  obtain ⟨h1, h2⟩ := h
  constructor
  · intro hc
    obtain ⟨msg, hmsg, himp⟩ := h1 hc
    exact ⟨msg, by rw [hmsg]; rfl, himp⟩
  · intro hc hb
    obtain ⟨s, hs⟩ := h2 hc hb
    exact ⟨f s, by rw [hs]; rfl⟩

theorem C6Inv_seq (g : String → String → String) {r1 r2 : Except String String}
    {c1 c2 b1 b2 : Bool} (h1 : C6Inv r1 c1 b1) (h2 : C6Inv r2 c2 b2) :
    C6Inv (do
      let sa ← r1
      let sb ← r2
      pure (g sa sb)) (c1 || c2) (b1 && b2) := by
  obtain ⟨h1e, h1o⟩ := h1
  obtain ⟨h2e, h2o⟩ := h2
  constructor
  · intro hc
    cases hr1 : r1 with
    | error msg =>
      refine ⟨msg, rfl, ?_⟩
      intro hb
      simp only [Bool.and_eq_true] at hb
      cases hc1 : c1 with
      | true =>
        obtain ⟨msg', hmsg', himp⟩ := h1e hc1
        rw [hr1] at hmsg'
        rw [Except.error.inj hmsg']
        exact himp hb.1
      | false =>
        obtain ⟨s, hs⟩ := h1o hc1 hb.1
        rw [hr1] at hs
        exact absurd hs (by simp)
    | ok sa =>
      have hc1 : c1 = false := by
        cases hc1t : c1
        · rfl
        · obtain ⟨msg, hmsg, _⟩ := h1e hc1t
          rw [hr1] at hmsg
          exact absurd hmsg (by simp)
      have hc2 : c2 = true := by
        rw [hc1] at hc
        simpa using hc
      obtain ⟨msg, hmsg, himp⟩ := h2e hc2
      refine ⟨msg, by rw [hmsg]; rfl, ?_⟩
      intro hb
      simp only [Bool.and_eq_true] at hb
      exact himp hb.2
  · intro hc hb
    have hc' : c1 = false ∧ c2 = false := by
      cases c1 <;> cases c2 <;> simp_all
    simp only [Bool.and_eq_true] at hb
    obtain ⟨s1, hs1⟩ := h1o hc'.1 hb.1
    obtain ⟨s2, hs2⟩ := h2o hc'.2 hb.2
    exact ⟨g s1 s2, by rw [hs1, hs2]; rfl⟩

theorem C6Inv_term (v : IdToIndexMap) (e : Expression) (c : ℚ)
    (ih : C6Inv (codeGenE v e) (containsUnsupported e) (allVarsBound v e)) :
    C6Inv (specTermText v e c) (containsUnsupported e) (allVarsBound v e) := by
  rw [specTermText]
  split
  · exact ih
  · exact C6Inv_map _ ih

theorem C6Inv_factor (v : IdToIndexMap) (b e : Expression)
    (ihb : C6Inv (codeGenE v b) (containsUnsupported b) (allVarsBound v b))
    (ihe : C6Inv (codeGenE v e) (containsUnsupported e) (allVarsBound v e)) :
    C6Inv (specFactorText v b e)
      (containsUnsupported b || containsUnsupported e)
      (allVarsBound v b && allVarsBound v e) := by
  rw [specFactorText]
  split
  · next hone =>
    have he : containsUnsupported e = false ∧ allVarsBound v e = true := by
      cases e <;> simp_all [isOne, containsUnsupported, allVarsBound]
    rw [he.1, he.2, Bool.or_false, Bool.and_true]
    exact ihb
  · exact C6Inv_seq _ ihb ihe

mutual
theorem c6Expr : (e : Expression) → ∀ v : IdToIndexMap,
    C6Inv (codeGenE v e) (containsUnsupported e) (allVarsBound v e)
  | .var id => fun v => by
    constructor
    · intro hc
      exact absurd hc (by simp [containsUnsupported])
    · intro _ hb
      simp only [allVarsBound] at hb
      cases hl : lookupIdx v id with
      | none => rw [hl] at hb; simp at hb
      | some i =>
        refine ⟨"p[" ++ Nat.repr i ++ "]", ?_⟩
        simp [codeGenE, hl]
  | .const c => fun v => by
    constructor
    · intro hc
      exact absurd hc (by simp [containsUnsupported])
    · intro _ _
      exact ⟨cppToString c, by simp [codeGenE]⟩
  | .add c ts => fun v => by
    simp only [codeGenE, containsUnsupported, allVarsBound]
    exact C6Inv_map _ (c6Terms ts v)
  | .mul c fs => fun v => by
    simp only [codeGenE, containsUnsupported, allVarsBound]
    exact C6Inv_map _ (c6Factors fs v)
  | .div a b => fun v => by
    simp only [codeGenE, containsUnsupported, allVarsBound]
    exact C6Inv_seq _ (c6Expr a v) (c6Expr b v)
  | .pow a b => fun v => by
    simp only [codeGenE, containsUnsupported, allVarsBound]
    exact C6Inv_seq _ (c6Expr a v) (c6Expr b v)
  | .abs a => fun v => by
    simp only [codeGenE, containsUnsupported, allVarsBound]
    exact C6Inv_map _ (c6Expr a v)
  | .log a => fun v => by
    simp only [codeGenE, containsUnsupported, allVarsBound]
    exact C6Inv_map _ (c6Expr a v)
  | .exp a => fun v => by
    simp only [codeGenE, containsUnsupported, allVarsBound]
    exact C6Inv_map _ (c6Expr a v)
  | .sqrt a => fun v => by
    simp only [codeGenE, containsUnsupported, allVarsBound]
    exact C6Inv_map _ (c6Expr a v)
  | .sin a => fun v => by
    simp only [codeGenE, containsUnsupported, allVarsBound]
    exact C6Inv_map _ (c6Expr a v)
  | .cos a => fun v => by
    simp only [codeGenE, containsUnsupported, allVarsBound]
    exact C6Inv_map _ (c6Expr a v)
  | .tan a => fun v => by
    simp only [codeGenE, containsUnsupported, allVarsBound]
    exact C6Inv_map _ (c6Expr a v)
  | .asin a => fun v => by
    simp only [codeGenE, containsUnsupported, allVarsBound]
    exact C6Inv_map _ (c6Expr a v)
  | .acos a => fun v => by
    simp only [codeGenE, containsUnsupported, allVarsBound]
    exact C6Inv_map _ (c6Expr a v)
  | .atan a => fun v => by
    simp only [codeGenE, containsUnsupported, allVarsBound]
    exact C6Inv_map _ (c6Expr a v)
  | .atan2 a b => fun v => by
    simp only [codeGenE, containsUnsupported, allVarsBound]
    exact C6Inv_seq _ (c6Expr a v) (c6Expr b v)
  | .sinh a => fun v => by
    simp only [codeGenE, containsUnsupported, allVarsBound]
    exact C6Inv_map _ (c6Expr a v)
  | .cosh a => fun v => by
    simp only [codeGenE, containsUnsupported, allVarsBound]
    exact C6Inv_map _ (c6Expr a v)
  | .tanh a => fun v => by
    simp only [codeGenE, containsUnsupported, allVarsBound]
    exact C6Inv_map _ (c6Expr a v)
  | .min a b => fun v => by
    simp only [codeGenE, containsUnsupported, allVarsBound]
    exact C6Inv_seq _ (c6Expr a v) (c6Expr b v)
  | .max a b => fun v => by
    simp only [codeGenE, containsUnsupported, allVarsBound]
    exact C6Inv_seq _ (c6Expr a v) (c6Expr b v)
  | .ceil a => fun v => by
    simp only [codeGenE, containsUnsupported, allVarsBound]
    exact C6Inv_map _ (c6Expr a v)
  | .floor a => fun v => by
    simp only [codeGenE, containsUnsupported, allVarsBound]
    exact C6Inv_map _ (c6Expr a v)
  | .ifThenElse a b => fun v => by
    constructor
    · intro _
      refine ⟨"Codegen does not support if-then-else expressions.", ?_, ?_⟩
      · simp [codeGenE]
      · intro _
        exact Or.inl rfl
    · intro hc
      exact absurd hc (by simp [containsUnsupported])
  | .uninterpretedFunction s => fun v => by
    constructor
    · intro _
      refine ⟨"Codegen does not support uninterpreted functions.", ?_, ?_⟩
      · simp [codeGenE]
      · intro _
        exact Or.inr rfl
    · intro hc
      exact absurd hc (by simp [containsUnsupported])
theorem c6Terms : (ts : TermList) → ∀ v : IdToIndexMap,
    C6Inv (codeGenTerms v ts) (containsUnsupportedT ts) (allVarsBoundT v ts)
  | .nil => fun v => by
    constructor
    · intro hc
      exact absurd hc (by simp [containsUnsupportedT])
    · intro _ _
      exact ⟨"", by simp [codeGenTerms]⟩
  | .cons e c rest => fun v => by
    rw [codeGenTerms_cons]
    simp only [containsUnsupportedT, allVarsBoundT]
    exact C6Inv_seq _ (C6Inv_term v e c (c6Expr e v)) (c6Terms rest v)
theorem c6Factors : (fs : FactorList) → ∀ v : IdToIndexMap,
    C6Inv (codeGenFactors v fs) (containsUnsupportedF fs) (allVarsBoundF v fs)
  | .nil => fun v => by
    constructor
    · intro hc
      exact absurd hc (by simp [containsUnsupportedF])
    · intro _ _
      exact ⟨"", by simp [codeGenFactors]⟩
  | .cons b e rest => fun v => by
    rw [codeGenFactors_cons]
    simp only [containsUnsupportedF, allVarsBoundF]
    exact C6Inv_seq _ (C6Inv_factor v b e (c6Expr b v) (c6Expr e v)) (c6Factors rest v)
end

theorem codeGenDataLoop_any_error (v : IdToIndexMap) :
    ∀ (data : List Expression) (i : Nat),
      data.any containsUnsupported = true →
      ∃ msg, (codeGenDataLoop v i data).2 = some msg := by
  intro data
  induction data with
  | nil =>
    intro i h
    simp at h
  | cons e rest ih =>
    intro i h
    cases hs : codeGenE v e with
    | error msg =>
      exact ⟨msg, by simp [codeGenDataLoop, hs]⟩
    | ok s =>
      have hce : containsUnsupported e = false := by
        cases hct : containsUnsupported e
        · rfl
        · obtain ⟨msg, hmsg, _⟩ := ((c6Expr e v).1) hct
          rw [hs] at hmsg
          exact absurd hmsg (by simp)
      have hrest : rest.any containsUnsupported = true := by
        simp only [List.any_cons, hce, Bool.false_or] at h
        exact h
      obtain ⟨msg, hmsg⟩ := ih (i + 1) hrest
      exact ⟨msg, by simp [codeGenDataLoop, hs, hmsg]⟩

/-- C6 (corrected): any expression containing an IfThenElse or
UninterpretedFunction node always fails to lower; the error is one of the two
UnsupportedConstruct messages whenever every referenced variable is bound (an
unbound variable reached first yields the UnboundVariable error instead).
Scalar emission returns nothing to the caller on failure; batch emission,
however, has already written the function header (and any earlier assignment
statements) into the caller's sink when the failure occurs. -/
theorem claim_C6 :
    (∀ (e : Expression) (v : IdToIndexMap), containsUnsupported e = true →
      ∃ msg, codeGenE v e = .error msg) ∧
    (∀ (e : Expression) (v : IdToIndexMap), containsUnsupported e = true →
      allVarsBound v e = true →
      codeGenE v e = .error "Codegen does not support if-then-else expressions." ∨
      codeGenE v e = .error "Codegen does not support uninterpreted functions.") ∧
    (∀ (name : String) (params : List Variable) (e : Expression),
      containsUnsupported e = true →
      ∃ msg, codeGen name params e = .error msg) ∧
    (∀ (name : String) (params : List Variable) (data : List Expression),
      data.any containsUnsupported = true →
      ∃ msg rest,
        codeGenData name params data =
          ("void " ++ name ++ "(const double* p, double* m) \x7b\n" ++ rest, some msg)) := by
  refine ⟨?_, ?_, ?_, ?_⟩
  · intro e v hc
    obtain ⟨msg, hmsg, _⟩ := (c6Expr e v).1 hc
    exact ⟨msg, hmsg⟩
  · intro e v hc hb
    obtain ⟨msg, hmsg, himp⟩ := (c6Expr e v).1 hc
    cases himp hb with
    | inl h => exact Or.inl (by rw [hmsg, h])
    | inr h => exact Or.inr (by rw [hmsg, h])
  · intro name params e hc
    obtain ⟨msg, hmsg, _⟩ := (c6Expr e (buildIdToIndexMap params)).1 hc
    exact ⟨msg, by rw [codeGen, hmsg]; rfl⟩
  · intro name params data hany
    obtain ⟨msg, hmsg⟩ := codeGenDataLoop_any_error (buildIdToIndexMap params) data 0 hany
    refine ⟨msg, (codeGenDataLoop (buildIdToIndexMap params) 0 data).1, ?_⟩
    simp only [codeGenData, hmsg]

/-- C6 counterexample: batch emission of a one-cell matrix holding an
if-then-else writes the function header into the caller's sink before the
failure, so partial output does reach the caller; and lowering
`Division(Variable 0, IfThenElse(...))` under an empty binding fails with the
UnboundVariable message, not an UnsupportedConstruct one. -/
theorem claim_C6_counterexample :
    codeGenData "f" [] [.ifThenElse (.const 0) (.const 0)] =
      ("void f(const double* p, double* m) \x7b\n",
       some "Codegen does not support if-then-else expressions.") ∧
    "void f(const double* p, double* m) \x7b\n" ≠ "" ∧
    codeGenE [] (.div (.var 0) (.ifThenElse (.const 0) (.const 0))) =
      .error "Variable index is not found." := by decide

theorem claim_C6_witness :
    (∃ msg, codeGenE [] (.sin (.ifThenElse (.const 0) (.const 0))) = .error msg) ∧
    (codeGenE [] (.sin (.ifThenElse (.const 0) (.const 0))) =
        .error "Codegen does not support if-then-else expressions." ∨
      codeGenE [] (.sin (.ifThenElse (.const 0) (.const 0))) =
        .error "Codegen does not support uninterpreted functions.") ∧
    (∃ msg, codeGen "f" [] (.uninterpretedFunction "g") = .error msg) ∧
    (∃ msg rest, codeGenData "f" [] [.const 1, .ifThenElse (.const 0) (.const 0)] =
      ("void " ++ "f" ++ "(const double* p, double* m) \x7b\n" ++ rest, some msg)) :=
  ⟨claim_C6.1 _ [] (by decide),
   claim_C6.2.1 _ [] (by decide) (by decide),
   claim_C6.2.2.1 "f" [] _ (by decide),
   claim_C6.2.2.2 "f" [] _ (by decide)⟩

theorem claim_C7_witness :
    emitBatchFunction "f" [] [.var 0, .var 0] 1 1 = ("", some "MalformedInput") ∧
    (∃ ss : List String,
      ss.length = 1 * 1 ∧
      (∀ k, k < 1 * 1 →
        codeGenE (buildIdToIndexMap [⟨3⟩]) ([Expression.var 3].getD k (.const 0)) =
          .ok (ss.getD k "")) ∧
      ("void f(const double* p, double* m) \x7b\n    m[0] = p[0];\n\x7d\n" ++
        codeGenMeta "f" 1 1 1) =
        "void " ++ "f" ++ "(const double* p, double* m) \x7b\n" ++
        (strConcat (((List.range' 0 (1 * 1)).zip ss).map (fun p =>
          "    m[" ++ Nat.repr p.1 ++ "] = " ++ p.2 ++ ";\n")) ++ "\x7d\n") ++
        codeGenMeta "f" 1 1 1) :=
  ⟨(claim_C7 "f" [] [.var 0, .var 0] 1 1).1 (by decide),
   (claim_C7 "f" [⟨3⟩] [.var 3] 1 1).2
     ("void f(const double* p, double* m) \x7b\n    m[0] = p[0];\n\x7d\n" ++
       codeGenMeta "f" 1 1 1) (by decide)⟩
